import Mathlib

/-!
Verification of the CADD workflow orchestration layer: a shallow embedding of
the workspace layout model, the external tool invocation wrapper, the pipeline
description generator and the structure-file substitution table, together with
theorems settling the specification claims about them.
-/

namespace Cadd

/-!
JSON-like values, used to model the declarative pipeline description that
`screening_task` (ligate/ligen/virtual_screening.py) serializes and feeds to
the screening/docking engine.
-/

inductive JVal where
  | str : String → JVal
  | int : Int → JVal
  | arr : List JVal → JVal
  | obj : List (String × JVal) → JVal

/-- Association lookup of a field inside an object value. -/
def assocLookup : List (String × JVal) → String → Option JVal
  | [], _ => none
  | kv :: rest, key => if kv.1 = key then some kv.2 else assocLookup rest key

/-- Field lookup on a JSON-like value; `none` on non-objects. -/
def lookupField (v : JVal) (key : String) : Option JVal :=
  match v with
  | .obj fields => assocLookup fields key
  | _ => none

/-- The ordered stage list under the top-level "pipeline" key. -/
def pipelineStages (v : JVal) : List JVal :=
  match lookupField v "pipeline" with
  | some (.arr stages) => stages
  | _ => []

/-- The "kind" discriminator of a stage object. -/
def stageKind (stage : JVal) : Option JVal := lookupField stage "kind"

/-- The field names of an object value, in order. -/
def objKeys : JVal → List String
  | .obj fields => fields.map (fun kv => kv.1)
  | _ => []

/--
Embedding of the `ScreeningConfig` dataclass
(ligate/ligen/virtual_screening.py). The `ligand_expansion` field is
represented by the only piece of it the task reads,
`ligand_expansion.config.output_smi`. Paths are path strings.
-/
structure ScreeningConfig where
  inputMol2 : String
  inputPdb : String
  expansionOutputSmi : String
  outputPath : String
  inputProteinName : String
  cores : Int
  numParserWorkers : Int
  numWorkersUnfold : Int
  numWorkersDocknscore : Int

/--
The pipeline description dictionary built by `screening_task`
(ligate/ligen/virtual_screening.py, lines 42-90), verbatim. `mapInput` and
`mapOutput` abstract the container path mapping `ligen.map_input` /
`ligen.map_output` performed by the (external) container layer.
-/
def screening_description (cfg : ScreeningConfig)
    (mapInput mapOutput : String → String) : JVal :=
  let inputSmi := mapInput cfg.expansionOutputSmi
  let inputPdb := mapInput cfg.inputPdb
  let inputMol2 := mapInput cfg.inputMol2
  let outputCsv := mapOutput cfg.outputPath
  .obj [
    ("name", .str "vscreen"),
    ("pipeline", .arr [
      .obj [("kind", .str "reader_mol2"), ("name", .str "reader"),
            ("input_filepath", .str inputSmi)],
      .obj [("kind", .str "parser_mol2"),
            ("number_of_workers", .int cfg.numParserWorkers)],
      .obj [("kind", .str "bucketizer_ligand"), ("name", .str "bucketizer")],
      .obj [("kind", .str "unfold"), ("cpp_workers", .int cfg.numWorkersUnfold)],
      .obj [("kind", .str "dock_n_score"), ("wait_setup", .str "reader"),
            ("number_of_restart", .str "256"), ("clipping_factor", .str "256"),
            ("scoring_functions", .arr [.str "d22"]),
            ("cpp_workers", .int cfg.numWorkersDocknscore)],
      .obj [("kind", .str "writer_csv_bucket"), ("name", .str "writer"),
            ("wait_setup", .str "reader"), ("output_filepath", .str outputCsv),
            ("print_preamble", .str "1"),
            ("csv_fields", .arr [.str "SCORE_PROTEIN_NAME", .str "D22_SCORE"])],
      .obj [("kind", .str "tracker_bucket"), ("wait_setup", .str "reader")],
      .obj [("kind", .str "sink_bucket"), ("number_of_workers", .str "1")]
    ]),
    ("targets", .arr [
      .obj [
        ("name", .str cfg.inputProteinName),
        ("configuration", .obj [
          ("input", .obj [("format", .str "protein"),
                          ("protein_path", .str inputPdb)]),
          ("filtering", .obj [("algorithm", .str "probe"),
                              ("path", .str inputMol2), ("radius", .str "8")]),
          ("pocket_identification", .obj [("algorithm", .str "caviar_like")]),
          ("anchor_points", .obj [("algorithms", .str "maximum_points"),
                                  ("separation_radius", .str "4")])
        ])
      ]
    ])
  ]

/--
The engine invocations performed by `screening_task`: the function builds the
description and unconditionally calls `ligen.run` exactly once with its
serialization — there is no validation step and no conditional path that
skips the invocation.
-/
def screening_task_engine_inputs (cfg : ScreeningConfig)
    (mapInput mapOutput : String → String) : List JVal :=
  [screening_description cfg mapInput mapOutput]

/-- A concrete screening configuration with a zero parser worker count. -/
def cfgZeroWorkers : ScreeningConfig :=
  ⟨"probe.mol2", "protein.pdb", "ligands.smi", "scores.csv", "p38", 8, 0, 20, 100⟩

/-- A concrete screening configuration with the dataclass default counts. -/
def cfgDefaultWorkers : ScreeningConfig :=
  ⟨"probe.mol2", "protein.pdb", "ligands.smi", "scores.csv", "p38", 8, 20, 20, 100⟩

/-!
The external tool invocation wrapper, `BinaryWrapper.execute` and
`normalize_arguments` (ligate/wrapper/binarywrapper.py).
-/

/--
An argument value handed to the wrapper. The Python signature permits
`str`, `pathlib.Path` and `int`; `other` stands for a value of any other
runtime type, carrying the printed type name and the printed value that the
error message interpolates.
-/
inductive ArgValue where
  | str : String → ArgValue
  | path : String → ArgValue
  | int : Int → ArgValue
  | other : String → String → ArgValue

/-- Whether the value is of one of the permitted kinds (`str`, `Path`, `int`). -/
def allowedArg : ArgValue → Bool
  | .str _ => true
  | .path _ => true
  | .int _ => true
  | .other _ _ => false

/-- The `str(item)` rendering applied to each permitted argument. -/
def argToString : ArgValue → String
  | .str s => s
  | .path p => p
  | .int n => toString n
  | .other _ v => v

/-- The printed runtime type name interpolated into the invalid-type message. -/
def argTypeName : ArgValue → String
  | .str _ => "<class 'str'>"
  | .path _ => "<class 'pathlib.PosixPath'>"
  | .int _ => "<class 'int'>"
  | .other ty _ => ty

/--
Embedding of `normalize_arguments`: renders each permitted value with `str`
and raises, at the first value of a disallowed kind, the "Invalid type"
error (modelled as `Except.error` carrying the message of the raised
exception).
-/
def normalize_arguments : List ArgValue → Except String (List String)
  | [] => .ok []
  | item :: rest =>
    if allowedArg item then
      match normalize_arguments rest with
      | .ok out => .ok (argToString item :: out)
      | .error e => .error e
    else
      .error ("Invalid type `" ++ argTypeName item ++
        "` with value `" ++ argToString item ++
        "` passed as an executable argument")

/--
The observable outcome of `BinaryWrapper.execute`. The two raise sites of
the Python code produce observably distinct exceptions: the argument-kind
rejection raised inside `normalize_arguments` (`configError`, before any
process is spawned) and the nonzero-exit failure raised after `subprocess.run`
(`toolFailure`, carrying the joined command line and the exit code).
-/
inductive ExecOutcome where
  | configError : String → ExecOutcome
  | toolFailure : String → Int → ExecOutcome
  | success : ExecOutcome
deriving DecidableEq

/--
Embedding of `BinaryWrapper.execute`. `binaryPath` is the resolved
`self.binary_path`; `exitCodeOf` abstracts the external process, giving the
exit code of `subprocess.run` on the normalized command line. The second
component counts the processes spawned during the call (the environment
merging, stdin handling and pre-execution logging of the source do not
affect the outcome or the spawn count and are not represented).
-/
def execute (binaryPath : String) (args : List ArgValue)
    (exitCodeOf : List String → Int) : ExecOutcome × Nat :=
  match normalize_arguments (ArgValue.path binaryPath :: args) with
  | .error msg => (.configError msg, 0)
  | .ok cmd =>
    let code := exitCodeOf cmd
    if code ≠ 0 then
      (.toolFailure (String.intercalate " " cmd) code, 1)
    else
      (.success, 1)

/-!
Edges and the edge directory layout
(ligate/pipelines/ligconv/common.py).
-/

/-- Embedding of the frozen dataclass `Edge`: an ordered pair of ligand names. -/
structure Edge where
  start_ligand : String
  end_ligand : String
deriving DecidableEq

/-- Embedding of `edge_directory_name`. -/
def edge_directory_name (edge : Edge) : String :=
  "edge_" ++ edge.start_ligand ++ "_" ++ edge.end_ligand

/--
The path computed by `LigConvContext.edge_dir`: `workdir / "p38" /
edge_directory_name(edge) / protein_ff_name` (`protein_dir` is
`workdir / "p38"`). Paths are component lists; the `ensure_directory` side
effect of the accessor is settled separately with the file system model.
-/
def edge_dir_path (workdir : List String) (proteinFfName : String)
    (edge : Edge) : List String :=
  workdir ++ ["p38", edge_directory_name edge, proteinFfName]

/-!
Topology-name selection for minimization workloads
(gromacs/src/steps/solvate_minimize.py).
-/

/-- Embedding of the `LigandOrProtein` enum. -/
inductive LigandOrProtein where
  | Ligand : LigandOrProtein
  | Protein : LigandOrProtein
deriving DecidableEq

/-- Embedding of the `MinimizationWorkload` dataclass. -/
structure MinimizationWorkload where
  lop : LigandOrProtein
  directory : String

/--
Modelled from the spec: the `ComputationTriple` type and the `protein_ff`
accessor live in `ligate.input.properties`, which is not among the provided
sources. The spec says protein workloads use "the active protein
forcefield's canonical name", so the triple is modelled as carrying that
canonical name.
-/
structure ComputationTriple where
  proteinForcefieldName : String

/-- Modelled from the spec: the canonical name of the triple's protein forcefield. -/
def protein_ff (triple : ComputationTriple) : String :=
  triple.proteinForcefieldName

/-- Association lookup over the two-entry topology-name table. -/
def lopLookup : List (LigandOrProtein × String) → LigandOrProtein → Option String
  | [], _ => none
  | kv :: rest, key => if kv.1 = key then some kv.2 else lopLookup rest key

/--
Embedding of `get_topname`: the two-entry dict
`{Ligand: "ligandInWater", Protein: protein_ff(triple)}` indexed by the
workload kind (a failed dict lookup would be `none`).
-/
def get_topname (input : MinimizationWorkload) (triple : ComputationTriple) :
    Option String :=
  lopLookup
    [(LigandOrProtein.Ligand, "ligandInWater"),
     (LigandOrProtein.Protein, protein_ff triple)]
    input.lop

/-- Embedding of `topology_path`. -/
def topology_path (topname : String) : String :=
  "topology/topol_" ++ topname ++ ".top"

/-!
The structure-file substitution table (`modify_grofile_inplace` in
gromacs/src/steps/solvate_minimize.py) and `replace_in_place`
(ligate/utils/io.py), modelled on the file content.
-/

/--
Replace-all over character lists, modelling Python `str.replace`: scans left
to right and substitutes every non-overlapping occurrence of the pattern.
The fuel argument (instantiated with the content length) only forces
structural termination; one unit is spent per scanned position, so content
length is always sufficient fuel for a nonempty pattern.
-/
def replaceCharsAux (pat rep : List Char) : Nat → List Char → List Char
  | 0, l => l
  | _ + 1, [] => []
  | fuel + 1, c :: rest =>
    if pat.isPrefixOf (c :: rest) then
      rep ++ replaceCharsAux pat rep fuel ((c :: rest).drop pat.length)
    else
      c :: replaceCharsAux pat rep fuel rest

/--
Replace-all on strings, modelling Python `str.replace(pat, rep)` for
nonempty patterns (every pattern in this development is nonempty).
-/
def string_replace (s pat rep : String) : String :=
  ⟨replaceCharsAux pat.data rep.data s.data.length s.data⟩

/--
Embedding of `replace_in_place`: folds `data = data.replace(src, target)`
over the replacement list, left to right, on the whole file content.
-/
def replace_in_place (content : String)
    (replacements : List (String × String)) : String :=
  replacements.foldl (fun data r => string_replace data r.1 r.2) content

/-- The fixed atom-naming substitution table of `modify_grofile_inplace`, verbatim. -/
def gro_substitutions : List (String × String) :=
  [("1HD1", "HD11"), ("2HD1", "HD12"), ("3HD1", "HD13"),
   ("1HD2", "HD21"), ("2HD2", "HD22"), ("3HD2", "HD23"),
   ("1HE2", "HE21"), ("2HE2", "HE22"),
   ("1HG1", "HG11"), ("2HG1", "HG12"), ("3HG1", "HG13"),
   ("1HG2", "HG21"), ("2HG2", "HG22"), ("3HG2", "HG23"),
   ("1HH1", "HH11"), ("2HH1", "HH12"),
   ("1HH2", "HH21"), ("2HH2", "HH22"),
   ("1HH3", "HH31"), ("2HH3", "HH32"), ("3HH3", "HH33"),
   ("HOH      O", "HOH     OW"),
   ("HOH     H1", "HOH    HW1"),
   ("HOH     H2", "HOH    HW2")]

/-- Embedding of `modify_grofile_inplace`, acting on the file content. -/
def modify_grofile_inplace (content : String) : String :=
  replace_in_place content gro_substitutions

/-!
A file system model for `ensure_directory` (ligate/utils/io.py). Paths are
absolute, link-free component lists, so `normalize_path` is the identity; a
file system records which paths are regular files and which are directories.
-/

/-- An absolute path as a list of components (the root is `[]`). -/
abbrev FsPath := List String

/-- The file system state: the sets of file paths and of directory paths. -/
structure FileSystem where
  files : List FsPath
  dirs : List FsPath
deriving DecidableEq

/-- Whether `q` lies at or below `root` (component-wise prefix test). -/
def underPath : FsPath → FsPath → Bool
  | [], _ => true
  | _, [] => false
  | a :: as, b :: bs => a == b && underPath as bs

/-- Embedding of `os.path.isfile`. -/
def isfile (fs : FileSystem) (p : FsPath) : Bool := decide (p ∈ fs.files)

/-- Embedding of `os.path.isdir`. -/
def isdir (fs : FileSystem) (p : FsPath) : Bool := decide (p ∈ fs.dirs)

/-- Embedding of `os.path.dirname`: drops the last path component. -/
def dirname (p : FsPath) : FsPath := p.dropLast

/--
Embedding of `shutil.rmtree(path, ignore_errors=True)`: removes the
directory at `root` and everything beneath it.
-/
def rmtree (fs : FileSystem) (root : FsPath) : FileSystem :=
  ⟨fs.files.filter (fun q => !underPath root q),
   fs.dirs.filter (fun q => !underPath root q)⟩

/-- Records `p` as a directory if it is not one already. -/
def insertDir (fs : FileSystem) (p : FsPath) : FileSystem :=
  if p ∈ fs.dirs then fs else ⟨fs.files, p :: fs.dirs⟩

/-- All prefixes of a path, shortest first, from `[]` up to the path itself. -/
def pathAncestors : FsPath → List FsPath
  | [] => [[]]
  | x :: rest => [] :: (pathAncestors rest).map (fun q => x :: q)

/--
Embedding of `os.makedirs(path, exist_ok=True)`: records the directory and
every missing ancestor, outermost first. Only the non-raising executions are
modelled (no ancestor of the path is a regular file), which covers every
call site settled below.
-/
def makedirs (fs : FileSystem) (p : FsPath) : FileSystem :=
  (pathAncestors p).foldl insertDir fs

/--
The first statement of `ensure_directory`: a path that is a regular file
(and not a directory) is coerced to its parent directory.
-/
def coercedPath (fs : FileSystem) (p : FsPath) : FsPath :=
  if isfile fs p && !isdir fs p then dirname p else p

/--
The second statement of `ensure_directory`: with `clear` set, an existing
directory is removed wholesale.
-/
def clearedFs (fs : FileSystem) (p : FsPath) (clear : Bool) : FileSystem :=
  if clear && isdir fs p then rmtree fs p else fs

/--
Embedding of `ensure_directory(path, clear)`: coerces a file path to its
parent, optionally clears the directory, creates it, and returns the
resulting absolute path (`normalize_path` is the identity on the
already-absolute component lists) together with the file system.
-/
def ensure_directory (fs : FileSystem) (p : FsPath) (clear : Bool) :
    FsPath × FileSystem :=
  (coercedPath fs p,
   makedirs (clearedFs fs (coercedPath fs p) clear) (coercedPath fs p))

/-- Creating a regular file inside a directory (the step between the two clears). -/
def create_file (fs : FileSystem) (p : FsPath) : FileSystem :=
  ⟨p :: fs.files, fs.dirs⟩

/-- A concrete file system holding a file and an unrelated sibling file. -/
def fsWithSibling : FileSystem :=
  ⟨[["work", "out.txt"], ["work", "sibling.txt"]], [[], ["work"]]⟩

/-- A concrete empty-workspace file system. -/
def fsEmptyRoot : FileSystem := ⟨[], [[]]⟩

/-- The stage list under the top-level "targets" key. -/
def targetsList (v : JVal) : List JVal :=
  match lookupField v "targets" with
  | some (.arr ts) => ts
  | _ => []

/-- A concrete argument list containing a value of a disallowed kind. -/
def argsWithBadValue : List ArgValue :=
  [ArgValue.str "solvate", ArgValue.other "<class 'float'>" "1.5"]

/-!
Theorems settling the claims.
-/

/--
C7: `modify_grofile_inplace` applies the fixed atom-naming substitution
table verbatim and sequentially, in exactly the given order, each step
replacing all occurrences in the file content (`String.replace` is
replace-all); illustrated on a content with repeated occurrences.
-/
theorem c7_gro_substitution_table_applied_in_order (content : String) :
    modify_grofile_inplace content =
      string_replace (string_replace (string_replace (string_replace
      (string_replace (string_replace (string_replace (string_replace
      (string_replace (string_replace (string_replace (string_replace
      (string_replace (string_replace (string_replace (string_replace
      (string_replace (string_replace (string_replace (string_replace
      (string_replace (string_replace (string_replace (string_replace
        content
        "1HD1" "HD11") "2HD1" "HD12") "3HD1" "HD13")
        "1HD2" "HD21") "2HD2" "HD22") "3HD2" "HD23")
        "1HE2" "HE21") "2HE2" "HE22")
        "1HG1" "HG11") "2HG1" "HG12") "3HG1" "HG13")
        "1HG2" "HG21") "2HG2" "HG22") "3HG2" "HG23")
        "1HH1" "HH11") "2HH1" "HH12")
        "1HH2" "HH21") "2HH2" "HH22")
        "1HH3" "HH31") "2HH3" "HH32") "3HH3" "HH33")
        "HOH      O" "HOH     OW")
        "HOH     H1" "HOH    HW1")
        "HOH     H2" "HOH    HW2" ∧
    modify_grofile_inplace "ALA 1HD1 1HD1\nHOH      O" =
      "ALA HD11 HD11\nHOH     OW" :=
  ⟨rfl, by decide⟩

/-- C8: edge identity is by the ordered pair as given, with no normalization of direction: for distinct ligand names the two orientations are distinct entities. -/
theorem c8_edge_direction_sensitive (a b : String) (h : a ≠ b) :
    Edge.mk a b ≠ Edge.mk b a := by
  intro heq
  injection heq with h1 h2
  exact h h1

/-- Witness for C8 at concrete ligand names. -/
theorem c8_edge_direction_sensitive_inst :
    ("lig1" : String) ≠ "lig2" ∧
    Edge.mk "lig1" "lig2" ≠ Edge.mk "lig2" "lig1" :=
  ⟨by decide, c8_edge_direction_sensitive "lig1" "lig2" (by decide)⟩

/--
C9: the topology filename for a minimization workload is selected by the
two-entry lookup on the workload kind: a ligand workload always resolves to
"ligandInWater", a protein workload to the active protein forcefield's
canonical name, and the resulting topology path for a ligand is the fixed
`topology/topol_ligandInWater.top`.
-/
theorem c9_topology_name_two_entry_lookup (d : String) (t : ComputationTriple) :
    get_topname ⟨LigandOrProtein.Ligand, d⟩ t = some "ligandInWater" ∧
    get_topname ⟨LigandOrProtein.Protein, d⟩ t = some (protein_ff t) ∧
    topology_path "ligandInWater" = "topology/topol_ligandInWater.top" :=
  ⟨rfl, rfl, rfl⟩

/--
C10: `edge_directory_name` is not injective: the distinct edges
`Edge "a_b" "c"` and `Edge "a" "b_c"` share the directory name
`edge_a_b_c`, and therefore resolve to the same edge directory path under
any workspace root and protein forcefield.
-/
theorem c10_edge_directory_name_collision :
    Edge.mk "a_b" "c" ≠ Edge.mk "a" "b_c" ∧
    edge_directory_name (Edge.mk "a_b" "c") =
      edge_directory_name (Edge.mk "a" "b_c") ∧
    ∀ (workdir : List String) (ffname : String),
      edge_dir_path workdir ffname (Edge.mk "a_b" "c") =
        edge_dir_path workdir ffname (Edge.mk "a" "b_c") := by
  refine ⟨by decide, by decide, ?_⟩
  intro workdir ffname
  rfl

/-- When the argument list contains a value of a disallowed kind, `normalize_arguments` raises the invalid-type error. -/
theorem normalize_arguments_error_of_disallowed {l : List ArgValue}
    {a : ArgValue} (hmem : a ∈ l) (hbad : allowedArg a = false) :
    ∃ msg, normalize_arguments l = .error msg := by
  induction l with
  | nil => cases hmem
  | cons x rest ih =>
    by_cases hx : allowedArg x = true
    · rcases List.mem_cons.mp hmem with h | h
      · subst h
        rw [hx] at hbad
        cases hbad
      · obtain ⟨msg, hmsg⟩ := ih h
        exact ⟨msg, by simp [normalize_arguments, hx, hmsg]⟩
    · have hx' : allowedArg x = false := by
        revert hx
        cases allowedArg x <;> simp
      exact ⟨"Invalid type `" ++ argTypeName x ++
          "` with value `" ++ argToString x ++
          "` passed as an executable argument",
        by simp only [normalize_arguments, hx', Bool.false_eq_true, if_false]⟩

/-- When every argument is of a permitted kind, `normalize_arguments` renders each with `str` in order. -/
theorem normalize_arguments_ok_of_allowed {l : List ArgValue}
    (h : ∀ a ∈ l, allowedArg a = true) :
    normalize_arguments l = .ok (l.map argToString) := by
  induction l with
  | nil => rfl
  | cons x rest ih =>
    have hx := h x (List.mem_cons_self x rest)
    have hrest := ih (fun a ha => h a (List.mem_cons_of_mem x ha))
    simp [normalize_arguments, hx, hrest]

/--
C3: for every argument list containing at least one value outside the
permitted kinds, `execute` fails with the configuration error raised by
`normalize_arguments` before spawning any process (the spawn count is zero),
and this failure is distinct from the nonzero-exit tool failure.
-/
theorem c3_disallowed_argument_rejected_before_spawn
    (bin : String) (args : List ArgValue) (exitCodeOf : List String → Int)
    (h : ∃ a ∈ args, allowedArg a = false) :
    (execute bin args exitCodeOf).2 = 0 ∧
    (∃ msg, (execute bin args exitCodeOf).1 = ExecOutcome.configError msg) ∧
    (∀ cmd code,
      (execute bin args exitCodeOf).1 ≠ ExecOutcome.toolFailure cmd code) := by
  obtain ⟨a, hmem, hbad⟩ := h
  obtain ⟨msg, hmsg⟩ :=
    normalize_arguments_error_of_disallowed
      (List.mem_cons_of_mem (ArgValue.path bin) hmem) hbad
  refine ⟨?_, ⟨msg, ?_⟩, ?_⟩ <;> simp [execute, hmsg]

/-- Witness for C3: a concrete float argument is rejected with no process spawned. -/
theorem c3_disallowed_argument_rejected_before_spawn_inst :
    (∃ a ∈ argsWithBadValue, allowedArg a = false) ∧
    ((execute "gmx" argsWithBadValue (fun _ => 0)).2 = 0 ∧
     (∃ msg, (execute "gmx" argsWithBadValue (fun _ => 0)).1 =
       ExecOutcome.configError msg) ∧
     (∀ cmd code, (execute "gmx" argsWithBadValue (fun _ => 0)).1 ≠
       ExecOutcome.toolFailure cmd code)) :=
  ⟨by decide,
   c3_disallowed_argument_rejected_before_spawn "gmx" argsWithBadValue
     (fun _ => 0) (by decide)⟩

/--
C4: for every invocation with arguments of permitted kinds exactly one
process is spawned (no retry by this layer); a nonzero exit code yields the
tool failure carrying the fully-expanded command line and the exit code,
and exit code zero returns normally.
-/
theorem c4_nonzero_exit_is_tool_failure
    (bin : String) (args : List ArgValue) (exitCodeOf : List String → Int)
    (h : ∀ a ∈ args, allowedArg a = true) :
    (exitCodeOf ((ArgValue.path bin :: args).map argToString) ≠ 0 →
      execute bin args exitCodeOf =
        (ExecOutcome.toolFailure
          (String.intercalate " " ((ArgValue.path bin :: args).map argToString))
          (exitCodeOf ((ArgValue.path bin :: args).map argToString)), 1)) ∧
    (exitCodeOf ((ArgValue.path bin :: args).map argToString) = 0 →
      execute bin args exitCodeOf = (ExecOutcome.success, 1)) ∧
    (execute bin args exitCodeOf).2 = 1 := by
  have hall : ∀ a ∈ ArgValue.path bin :: args, allowedArg a = true := by
    intro a ha
    rcases List.mem_cons.mp ha with h1 | h1
    · subst h1
      rfl
    · exact h a h1
  have hok := normalize_arguments_ok_of_allowed hall
  have key : execute bin args exitCodeOf =
      if exitCodeOf ((ArgValue.path bin :: args).map argToString) = 0 then
        (ExecOutcome.success, 1)
      else
        (ExecOutcome.toolFailure
          (String.intercalate " " ((ArgValue.path bin :: args).map argToString))
          (exitCodeOf ((ArgValue.path bin :: args).map argToString)), 1) := by
    simp [execute, hok]
  refine ⟨?_, ?_, ?_⟩
  · intro hc
    rw [key, if_neg hc]
  · intro hc
    rw [key, if_pos hc]
  · by_cases hc : exitCodeOf ((ArgValue.path bin :: args).map argToString) = 0
    · rw [key, if_pos hc]
    · rw [key, if_neg hc]

/-- Witness for C4: a concrete invocation exiting with code 1 yields the tool failure with the joined command line. -/
theorem c4_nonzero_exit_is_tool_failure_inst :
    (∀ a ∈ [ArgValue.str "solvate"], allowedArg a = true) ∧
    execute "gmx" [ArgValue.str "solvate"] (fun _ => 1) =
      (ExecOutcome.toolFailure "gmx solvate" 1, 1) :=
  ⟨by decide, by
    have h := (c4_nonzero_exit_is_tool_failure "gmx" [ArgValue.str "solvate"]
      (fun _ => 1) (by decide)).1 (by decide)
    exact h.trans (by decide)⟩

/--
C1 counterexample: the generator does not reject zero worker counts. For the
concrete `ScreeningConfig` with `num_parser = 0`, `screening_task` performs
its engine invocation (the invocation list is nonempty) and the emitted
pipeline description contains a parser stage with `number_of_workers = 0`
— no `ConfigurationError` path exists in the generator.
-/
theorem c1_zero_worker_config_not_rejected :
    screening_task_engine_inputs cfgZeroWorkers id id ≠ [] ∧
    lookupField
      ((pipelineStages (screening_description cfgZeroWorkers id id)).getD 1
        (JVal.obj []))
      "number_of_workers" = some (JVal.int 0) := by
  constructor
  · intro h
    exact List.cons_ne_nil _ _ h
  · rfl

/--
C1 amended: the Pipeline Description Generator performs no worker-count
validation. For every `ScreeningConfig` whose parser worker count is zero,
`screening_task` still performs its single unconditional engine invocation,
and the generated description contains the zero-worker parser stage
verbatim.
-/
theorem c1_zero_worker_config_emitted
    (cfg : ScreeningConfig) (mapInput mapOutput : String → String)
    (h : cfg.numParserWorkers = 0) :
    screening_task_engine_inputs cfg mapInput mapOutput =
      [screening_description cfg mapInput mapOutput] ∧
    lookupField
      ((pipelineStages (screening_description cfg mapInput mapOutput)).getD 1
        (JVal.obj []))
      "number_of_workers" = some (JVal.int 0) := by
  refine ⟨rfl, ?_⟩
  show some (JVal.int cfg.numParserWorkers) = some (JVal.int 0)
  rw [h]

/-- Witness for C1 amended at the concrete zero-worker configuration. -/
theorem c1_zero_worker_config_emitted_inst :
    cfgZeroWorkers.numParserWorkers = 0 ∧
    (screening_task_engine_inputs cfgZeroWorkers id id =
      [screening_description cfgZeroWorkers id id] ∧
     lookupField
       ((pipelineStages (screening_description cfgZeroWorkers id id)).getD 1
         (JVal.obj []))
       "number_of_workers" = some (JVal.int 0)) :=
  ⟨rfl, c1_zero_worker_config_emitted cfgZeroWorkers id id rfl⟩

/--
C2 counterexample: the claim says the tracker and sink stages each
synchronize on the reader's setup completion, but in the generated
description the sink stage (`sink_bucket`, the last pipeline stage) carries
no `wait_setup` field at all: its only fields are `kind` and
`number_of_workers`.
-/
theorem c2_sink_stage_does_not_wait_on_reader :
    stageKind
      ((pipelineStages (screening_description cfgDefaultWorkers id id)).getD 7
        (JVal.obj [])) = some (JVal.str "sink_bucket") ∧
    lookupField
      ((pipelineStages (screening_description cfgDefaultWorkers id id)).getD 7
        (JVal.obj [])) "wait_setup" = none ∧
    objKeys
      ((pipelineStages (screening_description cfgDefaultWorkers id id)).getD 7
        (JVal.obj [])) = ["kind", "number_of_workers"] :=
  ⟨rfl, rfl, rfl⟩

/--
C2 amended: for every `ScreeningConfig`, the generated description is the
fixed wire contract: name "vscreen"; an ordered stage list with exactly the
kinds reader_mol2, parser_mol2 (with the config's parser worker count),
bucketizer_ligand, unfold (with the config's unfold worker count),
dock_n_score (with the config's dock/score worker count, number_of_restart
"256" and clipping_factor "256"), writer_csv_bucket, then auxiliary
tracker_bucket and sink_bucket stages; the tracker stage (like dock_n_score
and the writer) synchronizes on the reader's setup completion, while the
sink stage does not — it carries only number_of_workers "1"; and the field
names and nesting of the stages and of the target block are the fixed
external identifiers.
-/
theorem c2_description_is_fixed_wire_contract
    (cfg : ScreeningConfig) (mapInput mapOutput : String → String) :
    lookupField (screening_description cfg mapInput mapOutput) "name" =
      some (JVal.str "vscreen") ∧
    (pipelineStages (screening_description cfg mapInput mapOutput)).map
        stageKind =
      [some (JVal.str "reader_mol2"), some (JVal.str "parser_mol2"),
       some (JVal.str "bucketizer_ligand"), some (JVal.str "unfold"),
       some (JVal.str "dock_n_score"), some (JVal.str "writer_csv_bucket"),
       some (JVal.str "tracker_bucket"), some (JVal.str "sink_bucket")] ∧
    (pipelineStages (screening_description cfg mapInput mapOutput)).map
        objKeys =
      [["kind", "name", "input_filepath"],
       ["kind", "number_of_workers"],
       ["kind", "name"],
       ["kind", "cpp_workers"],
       ["kind", "wait_setup", "number_of_restart", "clipping_factor",
        "scoring_functions", "cpp_workers"],
       ["kind", "name", "wait_setup", "output_filepath", "print_preamble",
        "csv_fields"],
       ["kind", "wait_setup"],
       ["kind", "number_of_workers"]] ∧
    lookupField
      ((pipelineStages (screening_description cfg mapInput mapOutput)).getD 1
        (JVal.obj [])) "number_of_workers" =
      some (JVal.int cfg.numParserWorkers) ∧
    lookupField
      ((pipelineStages (screening_description cfg mapInput mapOutput)).getD 3
        (JVal.obj [])) "cpp_workers" = some (JVal.int cfg.numWorkersUnfold) ∧
    lookupField
      ((pipelineStages (screening_description cfg mapInput mapOutput)).getD 4
        (JVal.obj [])) "cpp_workers" =
      some (JVal.int cfg.numWorkersDocknscore) ∧
    lookupField
      ((pipelineStages (screening_description cfg mapInput mapOutput)).getD 4
        (JVal.obj [])) "number_of_restart" = some (JVal.str "256") ∧
    lookupField
      ((pipelineStages (screening_description cfg mapInput mapOutput)).getD 4
        (JVal.obj [])) "clipping_factor" = some (JVal.str "256") ∧
    lookupField
      ((pipelineStages (screening_description cfg mapInput mapOutput)).getD 4
        (JVal.obj [])) "wait_setup" = some (JVal.str "reader") ∧
    lookupField
      ((pipelineStages (screening_description cfg mapInput mapOutput)).getD 5
        (JVal.obj [])) "wait_setup" = some (JVal.str "reader") ∧
    lookupField
      ((pipelineStages (screening_description cfg mapInput mapOutput)).getD 6
        (JVal.obj [])) "wait_setup" = some (JVal.str "reader") ∧
    lookupField
      ((pipelineStages (screening_description cfg mapInput mapOutput)).getD 7
        (JVal.obj [])) "wait_setup" = none ∧
    lookupField
      ((pipelineStages (screening_description cfg mapInput mapOutput)).getD 7
        (JVal.obj [])) "number_of_workers" = some (JVal.str "1") ∧
    (targetsList (screening_description cfg mapInput mapOutput)).map objKeys =
      [["name", "configuration"]] ∧
    lookupField
      ((targetsList (screening_description cfg mapInput mapOutput)).getD 0
        (JVal.obj [])) "name" = some (JVal.str cfg.inputProteinName) ∧
    objKeys
      ((lookupField
        ((targetsList (screening_description cfg mapInput mapOutput)).getD 0
          (JVal.obj [])) "configuration").getD (JVal.obj [])) =
      ["input", "filtering", "pocket_identification", "anchor_points"] :=
  ⟨rfl, rfl, rfl, rfl, rfl, rfl, rfl, rfl, rfl, rfl, rfl, rfl, rfl, rfl, rfl,
   rfl⟩

/-- Every path lies under itself. -/
theorem underPath_refl (p : FsPath) : underPath p p = true := by
  induction p with
  | nil => rfl
  | cons x rest ih => simp [underPath, ih]

/-- Extensions of a path lie under it. -/
theorem underPath_append (p l : FsPath) : underPath p (p ++ l) = true := by
  induction p with
  | nil => simp [underPath]
  | cons x rest ih => simp [underPath, ih]

/-- The prefix test only succeeds on paths at least as long. -/
theorem underPath_length {a b : FsPath} (h : underPath a b = true) :
    a.length ≤ b.length := by
  induction a generalizing b with
  | nil => simp
  | cons x rest ih =>
    cases b with
    | nil => simp [underPath] at h
    | cons y bs =>
      simp only [underPath, Bool.and_eq_true, beq_iff_eq] at h
      simp only [List.length_cons]
      exact Nat.succ_le_succ (ih h.2)

/-- Mutual prefixes are equal. -/
theorem underPath_antisymm {a b : FsPath} (h1 : underPath a b = true)
    (h2 : underPath b a = true) : a = b := by
  induction a generalizing b with
  | nil =>
    cases b with
    | nil => rfl
    | cons y bs => simp [underPath] at h2
  | cons x rest ih =>
    cases b with
    | nil => simp [underPath] at h1
    | cons y bs =>
      simp only [underPath, Bool.and_eq_true, beq_iff_eq] at h1 h2
      rw [h1.1, ih h1.2 h2.2]

/-- The parent of a path is a prefix of it. -/
theorem underPath_dropLast (p : FsPath) : underPath p.dropLast p = true := by
  induction p with
  | nil => rfl
  | cons x rest ih =>
    cases rest with
    | nil => rfl
    | cons y ys =>
      show underPath (x :: (y :: ys).dropLast) (x :: y :: ys) = true
      simp only [underPath, Bool.and_eq_true, beq_iff_eq]
      exact ⟨trivial, ih⟩

/-- A path is among its own ancestors. -/
theorem mem_pathAncestors_self (p : FsPath) : p ∈ pathAncestors p := by
  induction p with
  | nil => simp [pathAncestors]
  | cons x rest ih =>
    simp only [pathAncestors, List.mem_cons, List.mem_map]
    exact Or.inr ⟨rest, ih, rfl⟩

/-- Every ancestor of a path is a prefix of it. -/
theorem underPath_of_mem_pathAncestors {q p : FsPath}
    (h : q ∈ pathAncestors p) : underPath q p = true := by
  induction p generalizing q with
  | nil =>
    simp only [pathAncestors, List.mem_cons, List.not_mem_nil, or_false] at h
    subst h
    rfl
  | cons x rest ih =>
    simp only [pathAncestors, List.mem_cons, List.mem_map] at h
    rcases h with h | ⟨a, ha, rfl⟩
    · subst h
      rfl
    · simp only [underPath, Bool.and_eq_true, beq_iff_eq]
      exact ⟨trivial, ih ha⟩

/-- The file list is untouched by directory insertion. -/
theorem insertDir_files (fs : FileSystem) (p : FsPath) :
    (insertDir fs p).files = fs.files := by
  unfold insertDir
  split <;> rfl

/-- The file list is untouched by a fold of directory insertions. -/
theorem foldl_insertDir_files (l : List FsPath) (fs : FileSystem) :
    (l.foldl insertDir fs).files = fs.files := by
  induction l generalizing fs with
  | nil => rfl
  | cons x rest ih => rw [List.foldl_cons, ih, insertDir_files]

/-- The file list is untouched by `makedirs`. -/
theorem makedirs_files (fs : FileSystem) (p : FsPath) :
    (makedirs fs p).files = fs.files :=
  foldl_insertDir_files _ _

/-- Membership in the directory list after a single insertion. -/
theorem mem_insertDir_dirs (fs : FileSystem) (p q : FsPath) :
    q ∈ (insertDir fs p).dirs ↔ q ∈ fs.dirs ∨ q = p := by
  by_cases hmem : p ∈ fs.dirs
  · simp only [insertDir, if_pos hmem]
    constructor
    · intro h
      exact Or.inl h
    · intro h
      rcases h with h | h
      · exact h
      · rw [h]
        exact hmem
  · simp only [insertDir, if_neg hmem, List.mem_cons]
    tauto

/-- Membership in the directory list after a fold of insertions. -/
theorem mem_foldl_insertDir_dirs (l : List FsPath) (fs : FileSystem)
    (q : FsPath) :
    q ∈ (l.foldl insertDir fs).dirs ↔ q ∈ fs.dirs ∨ q ∈ l := by
  induction l generalizing fs with
  | nil => simp
  | cons x rest ih =>
    rw [List.foldl_cons, ih, mem_insertDir_dirs, List.mem_cons]
    tauto

/-- Membership in the directory list after `makedirs`: the old directories plus every ancestor of the created path. -/
theorem mem_makedirs_dirs (fs : FileSystem) (p q : FsPath) :
    q ∈ (makedirs fs p).dirs ↔ q ∈ fs.dirs ∨ q ∈ pathAncestors p :=
  mem_foldl_insertDir_dirs _ _ _

/-- Inserting already-present directories is the identity. -/
theorem foldl_insertDir_of_all_mem {l : List FsPath} {fs : FileSystem}
    (h : ∀ q ∈ l, q ∈ fs.dirs) : l.foldl insertDir fs = fs := by
  induction l with
  | nil => rfl
  | cons x rest ih =>
    rw [List.foldl_cons]
    have hx : insertDir fs x = fs := by
      simp [insertDir, h x (List.mem_cons_self x rest)]
    rw [hx]
    exact ih (fun q hq => h q (List.mem_cons_of_mem x hq))

/-- Running `makedirs` twice on the same path is the same as once. -/
theorem makedirs_makedirs (fs : FileSystem) (p : FsPath) :
    makedirs (makedirs fs p) p = makedirs fs p := by
  show (pathAncestors p).foldl insertDir (makedirs fs p) = makedirs fs p
  apply foldl_insertDir_of_all_mem
  intro q hq
  exact (mem_makedirs_dirs fs p q).mpr (Or.inr hq)

/-- File membership after `rmtree`: the files not under the removed root. -/
theorem mem_rmtree_files (fs : FileSystem) (root q : FsPath) :
    q ∈ (rmtree fs root).files ↔
      q ∈ fs.files ∧ underPath root q = false := by
  simp [rmtree, List.mem_filter]

/-- Directory membership after `rmtree`: the directories not under the removed root. -/
theorem mem_rmtree_dirs (fs : FileSystem) (root q : FsPath) :
    q ∈ (rmtree fs root).dirs ↔
      q ∈ fs.dirs ∧ underPath root q = false := by
  simp [rmtree, List.mem_filter]

/-- The coercion step is the identity on paths that are not regular files. -/
theorem coercedPath_of_notfile {fs : FileSystem} {p : FsPath}
    (h : isfile fs p = false) : coercedPath fs p = p := by
  simp [coercedPath, h]

/-- The coercion step sends a regular-file path to its parent. -/
theorem coercedPath_of_file {fs : FileSystem} {p : FsPath}
    (hfile : isfile fs p = true) (hnotdir : isdir fs p = false) :
    coercedPath fs p = dirname p := by
  simp [coercedPath, hfile, hnotdir]

/-- Without `clear`, the clearing step is the identity. -/
theorem clearedFs_false (fs : FileSystem) (p : FsPath) :
    clearedFs fs p false = fs := by
  simp [clearedFs]

/-- With `clear` set on an existing directory, the clearing step is `rmtree`. -/
theorem clearedFs_true_of_dir {fs : FileSystem} {p : FsPath}
    (h : isdir fs p = true) : clearedFs fs p true = rmtree fs p := by
  simp [clearedFs, h]

/-- The Boolean file test read back as membership. -/
theorem isfile_false_iff (fs : FileSystem) (p : FsPath) :
    isfile fs p = false ↔ p ∉ fs.files := by
  simp [isfile]

/-- The Boolean directory test read back as membership. -/
theorem isdir_true_iff (fs : FileSystem) (p : FsPath) :
    isdir fs p = true ↔ p ∈ fs.dirs := by
  simp [isdir]

/--
Behaviour of `ensure_directory` with `clear` on a path that is not a
regular file: the path is returned unchanged and ends up a directory, no
file appears that was not already present, and when the path was an
existing directory its whole subtree (files, and directories other than the
path itself) is gone afterwards.
-/
theorem ensure_directory_clear_spec {fs : FileSystem} {p : FsPath}
    (hnotfile : isfile fs p = false) :
    (ensure_directory fs p true).1 = p ∧
    isdir (ensure_directory fs p true).2 p = true ∧
    (∀ q, q ∈ (ensure_directory fs p true).2.files → q ∈ fs.files) ∧
    (isdir fs p = true →
      ∀ q, underPath p q = true →
        q ∉ (ensure_directory fs p true).2.files) ∧
    (isdir fs p = true →
      ∀ q, underPath p q = true → q ≠ p →
        q ∉ (ensure_directory fs p true).2.dirs) := by
  have hc : coercedPath fs p = p := coercedPath_of_notfile hnotfile
  have e : ensure_directory fs p true =
      (p, makedirs (clearedFs fs p true) p) := by
    unfold ensure_directory
    rw [hc]
  have hdirOut : isdir (makedirs (clearedFs fs p true) p) p = true := by
    rw [isdir_true_iff]
    exact (mem_makedirs_dirs _ _ _).mpr (Or.inr (mem_pathAncestors_self p))
  have hsub : ∀ q, q ∈ (makedirs (clearedFs fs p true) p).files →
      q ∈ fs.files := by
    intro q hq
    rw [makedirs_files] at hq
    revert hq
    unfold clearedFs
    split
    · intro hq
      exact ((mem_rmtree_files fs p q).mp hq).1
    · intro hq
      exact hq
  have hclr : isdir fs p = true →
      ∀ q, underPath p q = true →
        q ∉ (makedirs (clearedFs fs p true) p).files := by
    intro hdir q hq hmem
    rw [makedirs_files, clearedFs_true_of_dir hdir] at hmem
    have h2 := (mem_rmtree_files fs p q).mp hmem
    rw [hq] at h2
    exact absurd h2.2 (by decide)
  have hdirs : isdir fs p = true →
      ∀ q, underPath p q = true → q ≠ p →
        q ∉ (makedirs (clearedFs fs p true) p).dirs := by
    intro hdir q hq hne hmem
    rcases (mem_makedirs_dirs _ _ _).mp hmem with h | h
    · rw [clearedFs_true_of_dir hdir] at h
      have h2 := (mem_rmtree_dirs fs p q).mp h
      rw [hq] at h2
      exact absurd h2.2 (by decide)
    · exact hne (underPath_antisymm (underPath_of_mem_pathAncestors h) hq)
  rw [e]
  exact ⟨rfl, hdirOut, hsub, hclr, hdirs⟩

/-- Behaviour of `ensure_directory` without `clear` on a path that is not a regular file: it just creates the directory chain. -/
theorem ensure_directory_noclear_spec {fs : FileSystem} {p : FsPath}
    (hnotfile : isfile fs p = false) :
    ensure_directory fs p false = (p, makedirs fs p) := by
  unfold ensure_directory
  rw [coercedPath_of_notfile hnotfile, clearedFs_false]

/--
C5: for every directory path `p` (a path that is not a regular file),
`ensure_directory(p, clear=True)`, then creating a file inside `p`, then
`ensure_directory(p, clear=True)` again results in `p` being an existing
empty directory (no file or directory strictly below `p` remains, `p`
itself exists); and `ensure_directory` without `clear` returns `p`, removes
nothing (files untouched, directories preserved), and is idempotent.
-/
theorem c5_ensure_directory_clear_roundtrip
    (fs : FileSystem) (p : FsPath) (fname : String)
    (hnotfile : isfile fs p = false) :
    ((ensure_directory fs p true).1 = p ∧
     (ensure_directory
        (create_file (ensure_directory fs p true).2 (p ++ [fname]))
        p true).1 = p ∧
     isdir (ensure_directory
        (create_file (ensure_directory fs p true).2 (p ++ [fname]))
        p true).2 p = true ∧
     (∀ q, underPath p q = true →
        q ∉ (ensure_directory
          (create_file (ensure_directory fs p true).2 (p ++ [fname]))
          p true).2.files) ∧
     (∀ q, underPath p q = true → q ≠ p →
        q ∉ (ensure_directory
          (create_file (ensure_directory fs p true).2 (p ++ [fname]))
          p true).2.dirs)) ∧
    ((ensure_directory fs p false).1 = p ∧
     (ensure_directory fs p false).2.files = fs.files ∧
     (∀ d ∈ fs.dirs, d ∈ (ensure_directory fs p false).2.dirs) ∧
     ensure_directory (ensure_directory fs p false).2 p false =
       ensure_directory fs p false) := by
  obtain ⟨h1path, h1dir, h1sub, _, _⟩ := ensure_directory_clear_spec hnotfile
  have hpnot : p ∉ fs.files := (isfile_false_iff fs p).mp hnotfile
  have hp1 : p ∉ (ensure_directory fs p true).2.files :=
    fun h => hpnot (h1sub p h)
  have hfile2 : isfile
      (create_file (ensure_directory fs p true).2 (p ++ [fname])) p = false := by
    rw [isfile_false_iff]
    intro hmem
    have hmem2 : p ∈ (p ++ [fname]) :: (ensure_directory fs p true).2.files :=
      hmem
    rcases List.mem_cons.mp hmem2 with h | h
    · have hlen := congrArg List.length h
      simp at hlen
    · exact hp1 h
  have hdir2 : isdir
      (create_file (ensure_directory fs p true).2 (p ++ [fname])) p = true :=
    h1dir
  obtain ⟨h2path, h2dir, _, h2files, h2dirs⟩ :=
    ensure_directory_clear_spec hfile2
  refine ⟨⟨h1path, h2path, h2dir, h2files hdir2, h2dirs hdir2⟩, ?_, ?_, ?_, ?_⟩
  · rw [ensure_directory_noclear_spec hnotfile]
  · rw [ensure_directory_noclear_spec hnotfile]
    exact makedirs_files fs p
  · intro d hd
    rw [ensure_directory_noclear_spec hnotfile]
    exact (mem_makedirs_dirs fs p d).mpr (Or.inl hd)
  · have hnotfile2 : isfile (ensure_directory fs p false).2 p = false := by
      rw [ensure_directory_noclear_spec hnotfile]
      have heq : isfile (makedirs fs p) p = isfile fs p := by
        simp [isfile, makedirs_files]
      exact heq.trans hnotfile
    calc ensure_directory (ensure_directory fs p false).2 p false
        = (p, makedirs (ensure_directory fs p false).2 p) :=
          ensure_directory_noclear_spec hnotfile2
      _ = (p, makedirs (makedirs fs p) p) := by
          rw [ensure_directory_noclear_spec hnotfile]
      _ = (p, makedirs fs p) := by rw [makedirs_makedirs]
      _ = ensure_directory fs p false :=
          (ensure_directory_noclear_spec hnotfile).symm

/-- Witness for C5 at a concrete workspace. -/
theorem c5_ensure_directory_clear_roundtrip_inst :
    isfile fsEmptyRoot ["work", "out"] = false ∧
    (((ensure_directory fsEmptyRoot ["work", "out"] true).1 = ["work", "out"] ∧
      (ensure_directory
         (create_file (ensure_directory fsEmptyRoot ["work", "out"] true).2
           (["work", "out"] ++ ["tmp.txt"]))
         ["work", "out"] true).1 = ["work", "out"] ∧
      isdir (ensure_directory
         (create_file (ensure_directory fsEmptyRoot ["work", "out"] true).2
           (["work", "out"] ++ ["tmp.txt"]))
         ["work", "out"] true).2 ["work", "out"] = true ∧
      (∀ q, underPath ["work", "out"] q = true →
         q ∉ (ensure_directory
           (create_file (ensure_directory fsEmptyRoot ["work", "out"] true).2
             (["work", "out"] ++ ["tmp.txt"]))
           ["work", "out"] true).2.files) ∧
      (∀ q, underPath ["work", "out"] q = true → q ≠ ["work", "out"] →
         q ∉ (ensure_directory
           (create_file (ensure_directory fsEmptyRoot ["work", "out"] true).2
             (["work", "out"] ++ ["tmp.txt"]))
           ["work", "out"] true).2.dirs)) ∧
     ((ensure_directory fsEmptyRoot ["work", "out"] false).1 = ["work", "out"] ∧
      (ensure_directory fsEmptyRoot ["work", "out"] false).2.files =
        fsEmptyRoot.files ∧
      (∀ d ∈ fsEmptyRoot.dirs,
         d ∈ (ensure_directory fsEmptyRoot ["work", "out"] false).2.dirs) ∧
      ensure_directory (ensure_directory fsEmptyRoot ["work", "out"] false).2
          ["work", "out"] false =
        ensure_directory fsEmptyRoot ["work", "out"] false)) :=
  ⟨by decide,
   c5_ensure_directory_clear_roundtrip fsEmptyRoot ["work", "out"] "tmp.txt"
     (by decide)⟩

/--
C6: for every path `p` that exists as a regular file (and not a directory)
whose parent is an existing directory, `ensure_directory(p, clear=True)`
coerces `p` to its parent, removes the whole content of the parent —
including sibling files unrelated to `p` — recreates the parent, and
returns the parent's path: the clear applies to the coerced parent, not to
the originally requested path.
-/
theorem c6_ensure_directory_file_coercion_clears_parent
    (fs : FileSystem) (p : FsPath)
    (hfile : isfile fs p = true) (hnotdir : isdir fs p = false)
    (hparent : isdir fs (dirname p) = true) :
    (ensure_directory fs p true).1 = dirname p ∧
    isdir (ensure_directory fs p true).2 (dirname p) = true ∧
    p ∉ (ensure_directory fs p true).2.files ∧
    (∀ q, underPath (dirname p) q = true →
      q ∉ (ensure_directory fs p true).2.files) ∧
    (∀ q, underPath (dirname p) q = true → q ≠ dirname p →
      q ∉ (ensure_directory fs p true).2.dirs) := by
  have hc : coercedPath fs p = dirname p := coercedPath_of_file hfile hnotdir
  have e : ensure_directory fs p true =
      (dirname p, makedirs (rmtree fs (dirname p)) (dirname p)) := by
    unfold ensure_directory
    rw [hc, clearedFs_true_of_dir hparent]
  have hfiles : ∀ q, underPath (dirname p) q = true →
      q ∉ (makedirs (rmtree fs (dirname p)) (dirname p)).files := by
    intro q hq hmem
    rw [makedirs_files] at hmem
    have h2 := (mem_rmtree_files fs (dirname p) q).mp hmem
    rw [hq] at h2
    exact absurd h2.2 (by decide)
  have hdirOut : isdir (makedirs (rmtree fs (dirname p)) (dirname p))
      (dirname p) = true := by
    rw [isdir_true_iff]
    exact (mem_makedirs_dirs _ _ _).mpr (Or.inr (mem_pathAncestors_self _))
  have hdirs : ∀ q, underPath (dirname p) q = true → q ≠ dirname p →
      q ∉ (makedirs (rmtree fs (dirname p)) (dirname p)).dirs := by
    intro q hq hne hmem
    rcases (mem_makedirs_dirs _ _ _).mp hmem with h | h
    · have h2 := (mem_rmtree_dirs fs (dirname p) q).mp h
      rw [hq] at h2
      exact absurd h2.2 (by decide)
    · exact hne (underPath_antisymm (underPath_of_mem_pathAncestors h) hq)
  rw [e]
  exact ⟨rfl, hdirOut, hfiles p (underPath_dropLast p), hfiles, hdirs⟩

/-- Witness for C6: clearing through a file path removes the unrelated sibling file of the concrete workspace. -/
theorem c6_ensure_directory_file_coercion_clears_parent_inst :
    (isfile fsWithSibling ["work", "out.txt"] = true ∧
     isdir fsWithSibling ["work", "out.txt"] = false ∧
     isdir fsWithSibling (dirname ["work", "out.txt"]) = true) ∧
    ((ensure_directory fsWithSibling ["work", "out.txt"] true).1 =
       dirname ["work", "out.txt"] ∧
     isdir (ensure_directory fsWithSibling ["work", "out.txt"] true).2
       (dirname ["work", "out.txt"]) = true ∧
     ["work", "out.txt"] ∉
       (ensure_directory fsWithSibling ["work", "out.txt"] true).2.files ∧
     (∀ q, underPath (dirname ["work", "out.txt"]) q = true →
       q ∉ (ensure_directory fsWithSibling ["work", "out.txt"] true).2.files) ∧
     (∀ q, underPath (dirname ["work", "out.txt"]) q = true →
       q ≠ dirname ["work", "out.txt"] →
       q ∉ (ensure_directory fsWithSibling ["work", "out.txt"] true).2.dirs)) :=
  ⟨⟨by decide, by decide, by decide⟩,
   c6_ensure_directory_file_coercion_clears_parent fsWithSibling
     ["work", "out.txt"] (by decide) (by decide) (by decide)⟩

end Cadd
